import Mathlib

/-!
Shallow embedding of `aws-janitor/resources/route53.go` (the Route53
mark-and-sweep resource handler) and proofs about it.

The provider API (paginated zone and record listings, the change-batch
endpoint) and the cross-invocation tracker are external collaborators; they
are modelled as explicit data (`Route53Svc`) and oracles (`Env`).  All state
mutation in the Go code is threaded explicitly.
-/

namespace Boskos

/-! ## Data model -/

structure HostedZone where
  id : String
  name : String
deriving DecidableEq

structure ResourceRecordSet where
  type : String
  name : String
deriving DecidableEq

structure route53ResourceRecordSet where
  zone : HostedZone
  obj : ResourceRecordSet
deriving DecidableEq

/-- Embedding of `route53ResourceRecordSet.ARN`. -/
def route53ResourceRecordSet.ARN (r : route53ResourceRecordSet) : String :=
  "route53::" ++ r.zone.id ++ "::" ++ r.obj.type ++ "::" ++ r.obj.name

/-- Embedding of `route53ResourceRecordSet.ResourceKey`, which returns `r.ARN()`. -/
def route53ResourceRecordSet.ResourceKey (r : route53ResourceRecordSet) : String :=
  r.ARN

/-! ## Filters -/

/-- Embedding of `zoneIsManaged`: the zone name must equal the single
allow-listed domain literal. -/
def zoneIsManaged (z : HostedZone) : Bool :=
  "test-cncf-aws.k8s.io." == z.name

/-- Character class `[0-9a-z]`. -/
def isLowerAlnum (c : Char) : Bool :=
  ('0' ≤ c && c ≤ '9') || ('a' ≤ c && c ≤ 'z')

/-- Character class `[0-9a-f]`. -/
def isLowerHex (c : Char) : Bool :=
  ('0' ≤ c && c ≤ '9') || ('a' ≤ c && c ≤ 'f')

/-- Character class `[a-z]`. -/
def isLowerAlpha (c : Char) : Bool :=
  'a' ≤ c && c ≤ 'z'

/-- Drops a literal character sequence from the front of `cs`, returning the
rest on success. -/
def dropLit : List Char → List Char → Option (List Char)
  | [], cs => some cs
  | _ :: _, [] => none
  | p :: ps, c :: cs => if c == p then dropLit ps cs else none

/-- Matches `[0-9a-f]{5}\.` at the front of the list (the regexes are only
anchored on the left, so anything may follow the final dot). -/
def matchHex5Dot : List Char → Bool
  | a :: b :: c :: d :: e :: f :: _ =>
      isLowerHex a && isLowerHex b && isLowerHex c && isLowerHex d && isLowerHex e && f == '.'
  | _ => false

/-- Matches `[0-9a-z]{1,10}-[0-9a-f]{5}\.` at the front of the list; the
fuel argument is the number of cluster-id characters still allowed. -/
def matchTokenTail : Nat → List Char → Bool
  | 0, _ => false
  | _ + 1, [] => false
  | n + 1, c :: cs =>
      isLowerAlnum c &&
        ((match cs with
          | '-' :: rest => matchHex5Dot rest
          | _ => false) || matchTokenTail n cs)

/-- The regex `^api\.e2e-[0-9a-z]{1,10}-[0-9a-f]{5}\.`. -/
def matchApiE2e (s : String) : Bool :=
  match dropLit "api.e2e-".data s.data with
  | some rest => matchTokenTail 10 rest
  | none => false

/-- The regex `^api\.internal\.e2e-[0-9a-z]{1,10}-[0-9a-f]{5}\.`. -/
def matchApiInternalE2e (s : String) : Bool :=
  match dropLit "api.internal.e2e-".data s.data with
  | some rest => matchTokenTail 10 rest
  | none => false

/-- The regex `^etcd-[a-z]\.internal\.e2e-[0-9a-z]{1,10}-[0-9a-f]{5}\.`. -/
def matchEtcdInternalE2e (s : String) : Bool :=
  match dropLit "etcd-".data s.data with
  | some (c :: rest) =>
      isLowerAlpha c &&
        (match dropLit ".internal.e2e-".data rest with
         | some rest2 => matchTokenTail 10 rest2
         | none => false)
  | _ => false

/-- The regex `^etcd-events-[a-z]\.internal\.e2e-[0-9a-z]{1,10}-[0-9a-f]{5}\.`. -/
def matchEtcdEventsInternalE2e (s : String) : Bool :=
  match dropLit "etcd-events-".data s.data with
  | some (c :: rest) =>
      isLowerAlpha c &&
        (match dropLit ".internal.e2e-".data rest with
         | some rest2 => matchTokenTail 10 rest2
         | none => false)
  | _ => false

/-- Embedding of the `managedNameRegexes` list, in source order. -/
def managedNameRegexes : List (String → Bool) :=
  [matchApiE2e, matchApiInternalE2e, matchEtcdInternalE2e, matchEtcdEventsInternalE2e]

/-- Embedding of `resourceRecordSetIsManaged`: the record type must be `"A"`
and the name must match one of the managed-name regexes. -/
def resourceRecordSetIsManaged (rrs : ResourceRecordSet) : Bool :=
  if rrs.type != "A" then false
  else managedNameRegexes.any (fun m => m rrs.name)

/-! ## External collaborators -/

/-- Oracles for the external collaborators: the tracker's retention decision
(`eligible`, the boolean returned by `Set.Mark`, decided outside this file),
whether the change-batch request for a given hosted zone id and chunk index
fails (`deleteFails`), and the current time (`now`). -/
structure Env where
  eligible : String → Bool
  deleteFails : String → Nat → Bool
  now : Nat

/-- Modelled from the spec: the janitor's `Set` tracker (defined outside this
file): a mapping from resource key to first-seen time. -/
structure Set where
  firstSeen : String → Option Nat

/-- Modelled from the spec: `NewSet` constructs an empty tracker set. -/
def NewSet (_ : Nat) : Set :=
  ⟨fun _ => none⟩

/-- Modelled from the spec: `Set.Mark` records the first-seen time if the key
is absent and returns whether the resource has aged past the external
retention threshold; that age decision is the environment's `eligible`. -/
def Set.Mark (s : Set) (env : Env) (key : String) : Bool × Set :=
  let s' : Set :=
    match s.firstSeen key with
    | some _ => s
    | none => ⟨fun k => if k == key then some env.now else s.firstSeen k⟩
  (env.eligible key, s')

/-- Model of the Route53 API as seen by this handler: `zonePages` are the
hosted-zone pages delivered by `ListHostedZonesPages` before it returns
`zonesErr`; `recordPages zid` are the record-set pages delivered by
`ListResourceRecordSetsPages` for hosted zone id `zid` before it returns
`recordsErr zid`. -/
structure Route53Svc where
  zonePages : List (List HostedZone)
  zonesErr : Option String
  recordPages : String → List (List ResourceRecordSet)
  recordsErr : String → Option String

/-! ## route53ResourceRecordSetsForZone -/

/-- State of one zone scan: the per-zone deletion candidate list `toDelete`,
the tracker set, and the instrumented trace of `Set.Mark` invocations
(resource keys, in call order). -/
structure ZoneScan where
  toDelete : List route53ResourceRecordSet
  set : Set
  marks : List String

/-- One iteration of the record loop inside `recordsPageFunc`: skip unmanaged
records, call `Set.Mark` on the managed ones.  The source logs when `Mark`
returns `true` but contains no statement appending `o` to `toDelete`. -/
def processRecord (env : Env) (zone : HostedZone) (st : ZoneScan) (rrs : ResourceRecordSet) :
    ZoneScan :=
  if !resourceRecordSetIsManaged rrs then st
  else
    let o : route53ResourceRecordSet := ⟨zone, rrs⟩
    let (_, set') := st.set.Mark env o.ARN
    { st with set := set', marks := st.marks ++ [o.ARN] }

/-- Embedding of `recordsPageFunc`: processes one page and returns `true` to
continue pagination. -/
def recordsPageFunc (env : Env) (zone : HostedZone) (st : ZoneScan)
    (page : List ResourceRecordSet) : ZoneScan × Bool :=
  (page.foldl (processRecord env zone) st, true)

/-- `ListResourceRecordSetsPages`: feeds pages to `recordsPageFunc` while it
returns `true`. -/
def runRecordPages (env : Env) (zone : HostedZone) :
    List (List ResourceRecordSet) → ZoneScan → ZoneScan × Bool
  | [], st => (st, true)
  | p :: ps, st =>
      let (st', cont) := recordsPageFunc env zone st p
      if cont then runRecordPages env zone ps st' else (st', false)

/-- Embedding of `route53ResourceRecordSetsForZone`: marks all record sets of
the zone and returns the `toDelete` slice (or the pagination error). -/
def route53ResourceRecordSetsForZone (env : Env) (svc : Route53Svc) (zone : HostedZone)
    (set : Set) (marks : List String) :
    Except String (List route53ResourceRecordSet) × Set × List String :=
  let st0 : ZoneScan := ⟨[], set, marks⟩
  let (st, completed) := runRecordPages env zone (svc.recordPages zone.id) st0
  let err := if completed then svc.recordsErr zone.id else none
  match err with
  | some e => (Except.error e, st.set, st.marks)
  | none => (Except.ok st.toDelete, st.set, st.marks)

/-! ## MarkAndSweep -/

structure Options where
  dryRun : Bool
  account : String
  region : String

/-- Embedding of `route53.Change` as built by the sweep: a delete action and
the record set it applies to. -/
structure Change where
  action : String
  resourceRecordSet : ResourceRecordSet
deriving DecidableEq

/-- Observable state of one `MarkAndSweep` run: the tracker set, the trace of
`Set.Mark` invocations, the `ChangeResourceRecordSets` requests issued (hosted
zone id and chunk contents, in order), the zone ids of logged delete-request
failures, and the captured record-listing error. -/
structure SweepState where
  set : Set
  marks : List String
  reqs : List (String × List Change)
  deleteFailures : List String
  listError : Option String

/-- The chunked delete loop of `MarkAndSweep`, with explicit fuel; each
iteration takes at most 1000 changes, issues one request, logs a failure
without aborting, and continues with the rest.  Each iteration consumes at
least one change, so fuel equal to the number of changes (as supplied by
`chunkLoop`) makes the fuel bound unreachable. -/
def chunkLoopF (env : Env) (zid : String) : Nat → Nat → List Change → SweepState → SweepState
  | _, _, [], st => st
  | 0, _, _ :: _, st => st
  | fuel + 1, idx, c :: cs, st =>
      let chunk := (c :: cs).take 1000
      let rest := (c :: cs).drop 1000
      let st' : SweepState :=
        { st with
          reqs := st.reqs ++ [(zid, chunk)]
          deleteFailures :=
            if env.deleteFails zid idx then st.deleteFailures ++ [zid] else st.deleteFailures }
      chunkLoopF env zid fuel (idx + 1) rest st'

/-- The `for len(changes) != 0` loop of `MarkAndSweep` for one zone. -/
def chunkLoop (env : Env) (zid : String) (idx : Nat) (changes : List Change)
    (st : SweepState) : SweepState :=
  chunkLoopF env zid changes.length idx changes st

/-- The body of the zone loop inside `pageFunc`: filter, collect the zone's
deletion candidates (capturing a listing error and halting pagination on
failure), honour dry-run, build the change batch and submit it in chunks. -/
def processZone (opts : Options) (env : Env) (svc : Route53Svc) (st : SweepState)
    (z : HostedZone) : SweepState × Bool :=
  if !zoneIsManaged z then (st, true)
  else
    match route53ResourceRecordSetsForZone env svc z st.set st.marks with
    | (Except.error e, set', marks') =>
        ({ st with set := set', marks := marks', listError := some e }, false)
    | (Except.ok toDelete, set', marks') =>
        let st' := { st with set := set', marks := marks' }
        if opts.dryRun then (st', true)
        else
          let changes := toDelete.map (fun rrs => Change.mk "DELETE" rrs.obj)
          (chunkLoop env z.id 0 changes st', true)

/-- The zone loop of `pageFunc` over one page of hosted zones; a `false` from
`processZone` aborts the page (the Go `return false`). -/
def processZonesInPage (opts : Options) (env : Env) (svc : Route53Svc) :
    List HostedZone → SweepState → SweepState × Bool
  | [], st => (st, true)
  | z :: zs, st =>
      let (st', cont) := processZone opts env svc st z
      if cont then processZonesInPage opts env svc zs st' else (st', false)

/-- `ListHostedZonesPages`: feeds zone pages to `pageFunc` while it returns
`true`. -/
def runZonePages (opts : Options) (env : Env) (svc : Route53Svc) :
    List (List HostedZone) → SweepState → SweepState × Bool
  | [], st => (st, true)
  | p :: ps, st =>
      let (st', cont) := processZonesInPage opts env svc p st
      if cont then runZonePages opts env svc ps st' else (st', false)

/-- Embedding of `Route53ResourceRecordSets.MarkAndSweep`: runs the paginated
zone sweep and returns the captured record-listing error if any, otherwise
the zone-pagination error (only observable when pagination completed). -/
def MarkAndSweep (opts : Options) (env : Env) (svc : Route53Svc) (set : Set) :
    Option String × SweepState :=
  let st0 : SweepState := ⟨set, [], [], [], none⟩
  let (st, completed) := runZonePages opts env svc svc.zonePages st0
  let pagesErr := if completed then svc.zonesErr else none
  match st.listError with
  | some e => (some e, st)
  | none => (pagesErr, st)

/-! ## ListAll -/

/-- Embedding of `errors.Wrapf` applied to a record-listing error in `ListAll`. -/
def wrapRecordsErr (opts : Options) (zid e : String) : String :=
  "couldn't describe route53 resources for " ++ opts.account ++ " in " ++ opts.region ++
    " zone " ++ zid ++ ": " ++ e

/-- Embedding of `errors.Wrapf` applied to the zone-pagination error in `ListAll`. -/
def wrapZonesErr (opts : Options) (e : String) : String :=
  "couldn't describe route53 instance profiles for " ++ opts.account ++ " in " ++
    opts.region ++ ": " ++ e

/-- The record loop of `ListAll`'s inner page callback: records a first-seen
time for every record of the page, with no record filter. -/
def listAllRecordPage (env : Env) (z : HostedZone) (set : Set)
    (page : List ResourceRecordSet) : Set :=
  page.foldl
    (fun s recordSet =>
      let arn := (route53ResourceRecordSet.mk z recordSet).ARN
      ⟨fun k => if k == arn then some env.now else s.firstSeen k⟩)
    set

/-- One managed zone in `ListAll`: paginate its record sets, recording every
record, and surface the pagination error. -/
def listAllZone (env : Env) (svc : Route53Svc) (z : HostedZone) (set : Set) :
    Set × Option String :=
  let set' := (svc.recordPages z.id).foldl (listAllRecordPage env z) set
  (set', svc.recordsErr z.id)

/-- The zone loop of `ListAll`'s page callback: skip unmanaged zones, record
the managed ones, wrap and capture a record-listing error and halt pagination. -/
def listAllZonesInPage (opts : Options) (env : Env) (svc : Route53Svc) :
    List HostedZone → Set × Option String → (Set × Option String) × Bool
  | [], st => (st, true)
  | z :: zs, (set, rrsErr) =>
      if !zoneIsManaged z then listAllZonesInPage opts env svc zs (set, rrsErr)
      else
        match listAllZone env svc z set with
        | (set', some e) => ((set', some (wrapRecordsErr opts z.id e)), false)
        | (set', none) => listAllZonesInPage opts env svc zs (set', rrsErr)

/-- `ListHostedZonesPages` as used by `ListAll`. -/
def listAllRunPages (opts : Options) (env : Env) (svc : Route53Svc) :
    List (List HostedZone) → Set × Option String → (Set × Option String) × Bool
  | [], st => (st, true)
  | p :: ps, st =>
      let (st', cont) := listAllZonesInPage opts env svc p st
      if cont then listAllRunPages opts env svc ps st' else (st', false)

/-- Embedding of `Route53ResourceRecordSets.ListAll`: always returns the set
built so far, together with the captured record-listing error if any,
otherwise the wrapped zone-pagination error. -/
def ListAll (opts : Options) (env : Env) (svc : Route53Svc) : Set × Option String :=
  let r := listAllRunPages opts env svc svc.zonePages (NewSet 0, none)
  let err := if r.2 then svc.zonesErr else none
  match r.1.2 with
  | some e => (r.1.1, some e)
  | none => (r.1.1, Option.map (wrapZonesErr opts) err)

/-! ## Specification-side derived definitions -/

/-- The chunks of a change list as cut by the 1000-item loop, with the same
fuel discipline as `chunkLoopF`. -/
def chunksF : Nat → List Change → List (List Change)
  | _, [] => []
  | 0, _ :: _ => []
  | fuel + 1, c :: cs => (c :: cs).take 1000 :: chunksF fuel ((c :: cs).drop 1000)

/-- The chunks of a change list: successive pieces of at most 1000 items. -/
def chunks1000 (l : List Change) : List (List Change) :=
  chunksF l.length l

/-- Resource keys of the managed records among `rs`, in order. -/
def managedRecordKeys (z : HostedZone) (rs : List ResourceRecordSet) : List String :=
  (rs.filter resourceRecordSetIsManaged).map (fun r => (route53ResourceRecordSet.mk z r).ARN)

/-- Resource keys of the managed records of zone `z` as listed by `svc`. -/
def zoneManagedRecordKeys (svc : Route53Svc) (z : HostedZone) : List String :=
  managedRecordKeys z (svc.recordPages z.id).flatten

/-- Resource keys of every managed record of every managed zone, in sweep
order: exactly the `Set.Mark` calls of a clean sweep. -/
def allManagedRecordKeys (svc : Route53Svc) : List String :=
  (svc.zonePages.flatten.filter zoneIsManaged).flatMap (zoneManagedRecordKeys svc)

/-- The first record-listing error among the managed zones of `zs`, in order. -/
def svcZoneErr (svc : Route53Svc) (zs : List HostedZone) : Option String :=
  (zs.filter zoneIsManaged).findSome? (fun z => svc.recordsErr z.id)

/-- The enumeration error of a sweep: the first record-listing error of a
managed zone if any, otherwise the zone-pagination error.  This is a function
of the listing data alone. -/
def enumErr (svc : Route53Svc) : Option String :=
  match svcZoneErr svc svc.zonePages.flatten with
  | some e => some e
  | none => svc.zonesErr

/-- Whether some managed zone of `zs` lists a record whose resource key is `k`. -/
def zonesHit (svc : Route53Svc) (zs : List HostedZone) (k : String) : Bool :=
  (zs.filter zoneIsManaged).any
    (fun z => ((svc.recordPages z.id).flatten).any
      (fun r => k == (route53ResourceRecordSet.mk z r).ARN))

/-! ## Concrete fixtures -/

/-- The allow-listed zone with a concrete hosted-zone id. -/
def zTest : HostedZone :=
  ⟨"Z123", "test-cncf-aws.k8s.io."⟩

/-- A managed record: address type, ephemeral-cluster api name. -/
def rTest : ResourceRecordSet :=
  ⟨"A", "api.e2e-71149fffac-dba53.test-cncf-aws.k8s.io."⟩

/-- The resource key of `rTest` in `zTest`. -/
def keyTest : String :=
  "route53::Z123::A::api.e2e-71149fffac-dba53.test-cncf-aws.k8s.io."

/-- Environment in which every resource is past retention and no delete
request fails. -/
def envTest : Env :=
  ⟨fun _ => true, fun _ _ => false, 7⟩

/-- Environment in which every delete request fails. -/
def envFail : Env :=
  ⟨fun _ => true, fun _ _ => true, 7⟩

/-- One managed zone with one managed, retention-expired record, no listing
errors. -/
def svcTest : Route53Svc :=
  ⟨[[zTest]], none, fun _ => [[rTest]], fun _ => none⟩

/-- Like `svcTest` but record listing fails for every zone. -/
def svcErr : Route53Svc :=
  ⟨[[zTest]], none, fun _ => [[rTest]], fun _ => some "throttled"⟩

/-- Like `svcTest` but the zone pagination itself errors after delivering its
pages, while every record listing is clean. -/
def svcZoneFail : Route53Svc :=
  ⟨[[zTest]], some "zone page timeout", fun _ => [[rTest]], fun _ => none⟩

/-- A non-dry-run configuration. -/
def optsWet : Options :=
  ⟨false, "acct", "us-east-1"⟩

/-- A dry-run configuration. -/
def optsDry : Options :=
  ⟨true, "acct", "us-east-1"⟩

/-- A change item used to exercise the chunk loop. -/
def chTest : Change :=
  ⟨"DELETE", rTest⟩

/-- An empty sweep state over an empty tracker set. -/
def stEmpty : SweepState :=
  ⟨NewSet 0, [], [], [], none⟩


/-! ## Structural lemmas: the zone scan -/

theorem foldRecords_spec (env : Env) (z : HostedZone) :
    ∀ (rs : List ResourceRecordSet) (st : ZoneScan), ∃ s',
      rs.foldl (processRecord env z) st =
        ⟨st.toDelete, s', st.marks ++ managedRecordKeys z rs⟩ := by
  intro rs
  induction rs with
  | nil =>
      intro st
      exact ⟨st.set, by simp [managedRecordKeys]⟩
  | cons r rs ih =>
      intro st
      by_cases h : resourceRecordSetIsManaged r
      · obtain ⟨s', hs'⟩ := ih ⟨st.toDelete, (st.set.Mark env
          (route53ResourceRecordSet.mk z r).ARN).2, st.marks ++
          [(route53ResourceRecordSet.mk z r).ARN]⟩
        refine ⟨s', ?_⟩
        simp only [List.foldl_cons, processRecord, h]
        simp only [Bool.not_true, Bool.false_eq_true, if_false]
        rw [hs']
        simp [managedRecordKeys, h, List.append_assoc]
      · obtain ⟨s', hs'⟩ := ih st
        refine ⟨s', ?_⟩
        simp only [List.foldl_cons, processRecord, h]
        simp only [Bool.not_false, if_true]
        rw [hs']
        simp [managedRecordKeys, h]

theorem runRecordPages_spec (env : Env) (z : HostedZone) :
    ∀ (ps : List (List ResourceRecordSet)) (st : ZoneScan), ∃ s',
      runRecordPages env z ps st =
        (⟨st.toDelete, s', st.marks ++ managedRecordKeys z ps.flatten⟩, true) := by
  intro ps
  induction ps with
  | nil =>
      intro st
      exact ⟨st.set, by simp [runRecordPages, managedRecordKeys]⟩
  | cons p ps ih =>
      intro st
      obtain ⟨s₁, h₁⟩ := foldRecords_spec env z p st
      obtain ⟨s₂, h₂⟩ := ih ⟨st.toDelete, s₁, st.marks ++ managedRecordKeys z p⟩
      refine ⟨s₂, ?_⟩
      simp only [runRecordPages, recordsPageFunc, h₁, if_true]
      rw [h₂]
      simp [managedRecordKeys, List.filter_append, List.append_assoc]

theorem forZone_spec (env : Env) (svc : Route53Svc) (z : HostedZone)
    (set : Set) (marks : List String) : ∃ s',
    route53ResourceRecordSetsForZone env svc z set marks =
      ((match svc.recordsErr z.id with
        | some e => Except.error e
        | none => Except.ok ([] : List route53ResourceRecordSet)),
       s', marks ++ zoneManagedRecordKeys svc z) := by
  obtain ⟨s', hs'⟩ := runRecordPages_spec env z (svc.recordPages z.id) ⟨[], set, marks⟩
  refine ⟨s', ?_⟩
  simp only [route53ResourceRecordSetsForZone, hs', zoneManagedRecordKeys]
  cases svc.recordsErr z.id <;> simp

/-! ## Structural lemmas: one zone of the sweep -/

theorem processZone_skip (opts : Options) (env : Env) (svc : Route53Svc)
    (st : SweepState) (z : HostedZone) (h : zoneIsManaged z = false) :
    processZone opts env svc st z = (st, true) := by
  simp [processZone, h]

theorem chunkLoopF_nil (env : Env) (zid : String) (fuel idx : Nat) (st : SweepState) :
    chunkLoopF env zid fuel idx [] st = st := by
  cases fuel <;> rfl

theorem processZone_clean (opts : Options) (env : Env) (svc : Route53Svc)
    (st : SweepState) (z : HostedZone) (hm : zoneIsManaged z = true)
    (hc : svc.recordsErr z.id = none) : ∃ s',
    processZone opts env svc st z =
      ({ st with set := s', marks := st.marks ++ zoneManagedRecordKeys svc z }, true) := by
  obtain ⟨s', hs'⟩ := forZone_spec env svc z st.set st.marks
  refine ⟨s', ?_⟩
  rw [hc] at hs'
  simp only [processZone, hm, Bool.not_true, Bool.false_eq_true, if_false, hs']
  cases hd : opts.dryRun
  · simp [chunkLoop, chunkLoopF_nil]
  · simp

theorem processZone_fail (opts : Options) (env : Env) (svc : Route53Svc)
    (st : SweepState) (z : HostedZone) (e : String) (hm : zoneIsManaged z = true)
    (he : svc.recordsErr z.id = some e) : ∃ s',
    processZone opts env svc st z =
      ({ st with set := s', marks := st.marks ++ zoneManagedRecordKeys svc z,
                 listError := some e }, false) := by
  obtain ⟨s', hs'⟩ := forZone_spec env svc z st.set st.marks
  refine ⟨s', ?_⟩
  rw [he] at hs'
  simp [processZone, hm, hs']

/-! ## Structural lemmas: pages of the sweep -/

/-- Resource keys of the managed records of the managed zones among `zs`. -/
def zoneListKeys (svc : Route53Svc) (zs : List HostedZone) : List String :=
  (zs.filter zoneIsManaged).flatMap (zoneManagedRecordKeys svc)

theorem processZonesInPage_clean (opts : Options) (env : Env) (svc : Route53Svc) :
    ∀ (zs : List HostedZone),
      (∀ z ∈ zs, zoneIsManaged z = true → svc.recordsErr z.id = none) →
      ∀ st : SweepState, ∃ s',
        processZonesInPage opts env svc zs st =
          ({ st with set := s', marks := st.marks ++ zoneListKeys svc zs }, true) := by
  intro zs
  induction zs with
  | nil =>
      intro _ st
      exact ⟨st.set, by simp [processZonesInPage, zoneListKeys]⟩
  | cons z zs ih =>
      intro h st
      cases hm : zoneIsManaged z with
      | false =>
          obtain ⟨s', hs'⟩ := ih (fun z' hz' => h z' (List.mem_cons_of_mem _ hz')) st
          refine ⟨s', ?_⟩
          simp only [processZonesInPage, processZone_skip opts env svc st z hm, if_true]
          rw [hs']
          simp [zoneListKeys, List.filter_cons, hm]
      | true =>
          obtain ⟨s₁, h₁⟩ := processZone_clean opts env svc st z hm
            (h z (List.mem_cons_self z zs) hm)
          obtain ⟨s₂, h₂⟩ := ih (fun z' hz' => h z' (List.mem_cons_of_mem _ hz'))
            { st with set := s₁, marks := st.marks ++ zoneManagedRecordKeys svc z }
          refine ⟨s₂, ?_⟩
          simp only [processZonesInPage, h₁, if_true]
          rw [h₂]
          simp [zoneListKeys, List.filter_cons, hm, List.append_assoc]

theorem runZonePages_clean (opts : Options) (env : Env) (svc : Route53Svc) :
    ∀ (pages : List (List HostedZone)),
      (∀ z ∈ pages.flatten, zoneIsManaged z = true → svc.recordsErr z.id = none) →
      ∀ st : SweepState, ∃ s',
        runZonePages opts env svc pages st =
          ({ st with set := s', marks := st.marks ++ zoneListKeys svc pages.flatten },
           true) := by
  intro pages
  induction pages with
  | nil =>
      intro _ st
      exact ⟨st.set, by simp [runZonePages, zoneListKeys]⟩
  | cons p ps ih =>
      intro h st
      obtain ⟨s₁, h₁⟩ := processZonesInPage_clean opts env svc p
        (fun z hz => h z (by simp [hz])) st
      obtain ⟨s₂, h₂⟩ := ih (fun z hz => h z (by simp [hz]))
        { st with set := s₁, marks := st.marks ++ zoneListKeys svc p }
      refine ⟨s₂, ?_⟩
      simp only [runZonePages, h₁, if_true]
      rw [h₂]
      simp [zoneListKeys, List.filter_append, List.append_assoc]

/-! ## Claim C6: zone allow-list -/

/-- C6: `zoneIsManaged z` returns true iff the zone name equals the single
allow-listed domain `"test-cncf-aws.k8s.io."` exactly. -/
theorem zoneIsManaged_iff_allowlisted (z : HostedZone) :
    zoneIsManaged z = true ↔ z.name = "test-cncf-aws.k8s.io." := by
  rw [zoneIsManaged, beq_iff_eq]
  exact eq_comm

/-! ## Claim C7: record filter classification -/

/-- C7: every record whose type is not `"A"` is unmanaged, and the pattern
classification on the four example address-type names gives
true / false / true / false. -/
theorem resourceRecordSetIsManaged_classification :
    (∀ r : ResourceRecordSet, r.type ≠ "A" → resourceRecordSetIsManaged r = false) ∧
    resourceRecordSetIsManaged
      ⟨"A", "api.e2e-71149fffac-dba53.test-cncf-aws.k8s.io."⟩ = true ∧
    resourceRecordSetIsManaged ⟨"A", "api.unrelated.example.com."⟩ = false ∧
    resourceRecordSetIsManaged
      ⟨"A", "etcd-b.internal.e2e-71149fffac-dba53.test-cncf-aws.k8s.io."⟩ = true ∧
    resourceRecordSetIsManaged ⟨"A", "www.test-cncf-aws.k8s.io."⟩ = false := by
  refine ⟨?_, by decide, by decide, by decide, by decide⟩
  intro r h
  simp [resourceRecordSetIsManaged, bne_iff_ne, h]

/-- Witness for C7: the non-address hypothesis is satisfiable, e.g. by a TXT
record with a managed-looking name. -/
theorem resourceRecordSetIsManaged_classification_witness :
    resourceRecordSetIsManaged
      ⟨"TXT", "api.e2e-71149fffac-dba53.test-cncf-aws.k8s.io."⟩ = false :=
  resourceRecordSetIsManaged_classification.1
    ⟨"TXT", "api.e2e-71149fffac-dba53.test-cncf-aws.k8s.io."⟩ (by decide)

/-! ## Claim C8: resource identity format -/

/-- C8: the resource identity used for tracking and logging is exactly
`"route53" ++ "::" ++ zone id ++ "::" ++ record type ++ "::" ++ record name`. -/
theorem resourceKey_format (z : HostedZone) (r : ResourceRecordSet) :
    (route53ResourceRecordSet.mk z r).ResourceKey =
      "route53" ++ "::" ++ z.id ++ "::" ++ r.type ++ "::" ++ r.name := rfl

/-! ## Claim C1: the deletion candidate list -/

/-- C1 (failing run): on a managed zone holding one managed record whose
`Set.Mark` call returns true, `route53ResourceRecordSetsForZone` still
returns an empty deletion candidate list — the source never appends to
`toDelete`, contradicting the claim and the function's own doc comment. -/
theorem route53_forZone_drops_marked_records :
    ((NewSet 0).Mark envTest keyTest).1 = true ∧
    (route53ResourceRecordSetsForZone envTest svcTest zTest (NewSet 0) []).2.2 =
      [keyTest] ∧
    (route53ResourceRecordSetsForZone envTest svcTest zTest (NewSet 0) []).1 =
      Except.ok [] :=
  ⟨rfl, rfl, rfl⟩

/-- General form of the C1 defect: whatever the zone, service data and
tracker verdicts, the returned candidate list is empty (or the listing
errored). -/
theorem route53_forZone_always_empty (env : Env) (svc : Route53Svc)
    (z : HostedZone) (set : Set) (marks : List String) :
    (route53ResourceRecordSetsForZone env svc z set marks).1 = Except.ok [] ∨
    ∃ e, (route53ResourceRecordSetsForZone env svc z set marks).1 = Except.error e := by
  obtain ⟨s', hs'⟩ := forZone_spec env svc z set marks
  rw [hs']
  cases svc.recordsErr z.id with
  | none => exact Or.inl rfl
  | some e => exact Or.inr ⟨e, rfl⟩

/-! ## Claim C2: dry-run issues no deletes but still marks -/

/-- C2: with dry-run enabled, a sweep whose record listings succeed issues no
`ChangeResourceRecordSets` request at all, while `Set.Mark` is invoked exactly
once per managed record of each managed zone, in order. -/
theorem markAndSweep_dryRun_no_deletes_marks_all (opts : Options) (env : Env)
    (svc : Route53Svc) (set : Set) (_hdry : opts.dryRun = true)
    (hclean : ∀ z ∈ svc.zonePages.flatten, zoneIsManaged z = true →
      svc.recordsErr z.id = none) :
    (MarkAndSweep opts env svc set).2.reqs = [] ∧
    (MarkAndSweep opts env svc set).2.marks = allManagedRecordKeys svc := by
  obtain ⟨s', hs'⟩ := runZonePages_clean opts env svc svc.zonePages hclean
    ⟨set, [], [], [], none⟩
  simp only [MarkAndSweep, hs']
  exact ⟨by trivial, by trivial⟩

/-- Witness for C2: the dry-run and clean-listing hypotheses hold for the
concrete one-zone, one-record service, and the sweep still marks the record. -/
theorem markAndSweep_dryRun_witness :
    (MarkAndSweep optsDry envTest svcTest (NewSet 0)).2.reqs = [] ∧
    (MarkAndSweep optsDry envTest svcTest (NewSet 0)).2.marks = [keyTest] := by
  have h := markAndSweep_dryRun_no_deletes_marks_all optsDry envTest svcTest
    (NewSet 0) rfl (fun z _ _ => rfl)
  exact ⟨h.1, by rw [h.2]; decide⟩

/-! ## Claim C5: batch chunking versus the missing candidates -/

/-- C5 (failing run): a non-dry-run sweep over one managed zone with exactly
one eligible deletion candidate (one managed record, `Mark` returning true)
issues zero delete requests, not `ceil(1/1000) = 1`: the change batch is
always built from the never-populated candidate list. -/
theorem markAndSweep_zero_requests_despite_candidate :
    optsWet.dryRun = false ∧
    envTest.eligible keyTest = true ∧
    (MarkAndSweep optsWet envTest svcTest (NewSet 0)).2.marks = [keyTest] ∧
    (MarkAndSweep optsWet envTest svcTest (NewSet 0)).2.reqs = [] :=
  ⟨rfl, rfl, rfl, rfl⟩

/-! ## Structural lemmas: the chunk loop -/

theorem chunksF_nil (fuel : Nat) : chunksF fuel [] = [] := by
  cases fuel <;> rfl

theorem chunksF_fuel : ∀ (f₁ : Nat) (l : List Change), l.length ≤ f₁ →
    ∀ f₂ : Nat, l.length ≤ f₂ → chunksF f₁ l = chunksF f₂ l := by
  intro f₁
  induction f₁ with
  | zero =>
      intro l hl f₂ _
      have : l = [] := List.length_eq_zero.mp (Nat.le_zero.mp hl)
      subst this
      rw [chunksF_nil, chunksF_nil]
  | succ f ih =>
      intro l hl f₂ hl₂
      cases l with
      | nil => rw [chunksF_nil, chunksF_nil]
      | cons c cs =>
          cases f₂ with
          | zero => exact absurd hl₂ (by simp)
          | succ f₂ =>
              simp only [List.length_cons] at hl hl₂
              simp only [chunksF]
              congr 1
              refine ih _ ?_ _ ?_ <;>
                simp only [List.length_drop, List.length_cons] <;> omega

theorem chunkLoopF_reqs (env : Env) (zid : String) :
    ∀ (fuel : Nat) (changes : List Change), changes.length ≤ fuel →
      ∀ (idx : Nat) (st : SweepState),
        (chunkLoopF env zid fuel idx changes st).reqs =
          st.reqs ++ (chunks1000 changes).map (fun c => (zid, c)) := by
  intro fuel
  induction fuel with
  | zero =>
      intro changes hl idx st
      have : changes = [] := List.length_eq_zero.mp (Nat.le_zero.mp hl)
      subst this
      simp [chunkLoopF, chunks1000, chunksF_nil]
  | succ f ih =>
      intro changes hl idx st
      cases changes with
      | nil => simp [chunkLoopF, chunks1000, chunksF_nil]
      | cons c cs =>
          simp only [List.length_cons] at hl
          have hrest : ((c :: cs).drop 1000).length ≤ f := by
            simp only [List.length_drop, List.length_cons]
            omega
          simp only [chunkLoopF]
          rw [ih _ hrest]
          have hch : chunks1000 (c :: cs) =
              (c :: cs).take 1000 :: chunks1000 ((c :: cs).drop 1000) := by
            show chunksF (c :: cs).length (c :: cs) = _
            simp only [List.length_cons, chunksF]
            congr 1
            refine chunksF_fuel _ _ ?_ _ (le_refl _)
            simp only [List.length_drop, List.length_cons]
            omega
          rw [hch]
          simp [List.append_assoc]

theorem chunkLoopF_listError (env : Env) (zid : String) :
    ∀ (fuel : Nat) (changes : List Change) (idx : Nat) (st : SweepState),
      (chunkLoopF env zid fuel idx changes st).listError = st.listError := by
  intro fuel
  induction fuel with
  | zero => intro changes idx st; cases changes <;> rfl
  | succ f ih =>
      intro changes idx st
      cases changes with
      | nil => rfl
      | cons c cs => simp only [chunkLoopF]; rw [ih]

/-! ## Structural lemmas: enumeration errors -/

theorem svcZoneErr_cons (svc : Route53Svc) (z : HostedZone) (zs : List HostedZone) :
    svcZoneErr svc (z :: zs) =
      if zoneIsManaged z then
        match svc.recordsErr z.id with
        | some e => some e
        | none => svcZoneErr svc zs
      else svcZoneErr svc zs := by
  cases hm : zoneIsManaged z with
  | false => simp [svcZoneErr, List.filter_cons, hm]
  | true =>
      simp only [svcZoneErr, List.filter_cons, hm, if_true]
      cases he : svc.recordsErr z.id <;> simp [List.findSome?, he]

theorem svcZoneErr_append (svc : Route53Svc) :
    ∀ (a b : List HostedZone),
      svcZoneErr svc (a ++ b) =
        match svcZoneErr svc a with
        | some e => some e
        | none => svcZoneErr svc b := by
  intro a b
  induction a with
  | nil => simp [svcZoneErr]
  | cons z a ih =>
      rw [List.cons_append, svcZoneErr_cons, svcZoneErr_cons]
      cases hm : zoneIsManaged z
      · simpa using ih
      · cases svc.recordsErr z.id <;> simp [ih]

theorem processZonesInPage_listError (opts : Options) (env : Env) (svc : Route53Svc) :
    ∀ (zs : List HostedZone) (st : SweepState), st.listError = none →
      (processZonesInPage opts env svc zs st).1.listError = svcZoneErr svc zs ∧
      (processZonesInPage opts env svc zs st).2 = (svcZoneErr svc zs).isNone := by
  intro zs
  induction zs with
  | nil =>
      intro st h
      simp [processZonesInPage, svcZoneErr, h]
  | cons z zs ih =>
      intro st h
      rw [svcZoneErr_cons]
      cases hm : zoneIsManaged z with
      | false =>
          simp only [processZonesInPage, processZone_skip opts env svc st z hm, if_true]
          simpa using ih st h
      | true =>
          cases he : svc.recordsErr z.id with
          | none =>
              obtain ⟨s', hs'⟩ := processZone_clean opts env svc st z hm he
              simp only [processZonesInPage, hs', if_true]
              simpa using ih ⟨s', st.marks ++ zoneManagedRecordKeys svc z, st.reqs, st.deleteFailures, st.listError⟩ h
          | some e =>
              obtain ⟨s', hs'⟩ := processZone_fail opts env svc st z e hm he
              simp only [processZonesInPage, hs']
              simp

theorem runZonePages_listError (opts : Options) (env : Env) (svc : Route53Svc) :
    ∀ (pages : List (List HostedZone)) (st : SweepState), st.listError = none →
      (runZonePages opts env svc pages st).1.listError = svcZoneErr svc pages.flatten ∧
      (runZonePages opts env svc pages st).2 = (svcZoneErr svc pages.flatten).isNone := by
  intro pages
  induction pages with
  | nil =>
      intro st h
      simp [runZonePages, svcZoneErr, h]
  | cons p ps ih =>
      intro st h
      rcases hp : processZonesInPage opts env svc p st with ⟨st', c⟩
      have h1 := processZonesInPage_listError opts env svc p st h
      rw [hp] at h1
      rw [List.flatten_cons, svcZoneErr_append]
      cases hE : svcZoneErr svc p with
      | some e =>
          rw [hE] at h1
          obtain ⟨h1a, h1b⟩ := h1
          have hc : c = false := by simpa using h1b
          subst hc
          have h1a' : st'.listError = some e := h1a
          simp only [runZonePages, hp]
          simp [h1a']
      | none =>
          rw [hE] at h1
          obtain ⟨h1a, h1b⟩ := h1
          simp only [Option.isNone_none] at h1b
          subst h1b
          simp only [runZonePages, hp, if_true]
          simpa using ih st' h1a

theorem markAndSweep_error_is_enumErr (opts : Options) (env : Env)
    (svc : Route53Svc) (set : Set) :
    (MarkAndSweep opts env svc set).1 = enumErr svc := by
  rcases hr : runZonePages opts env svc svc.zonePages ⟨set, [], [], [], none⟩ with ⟨st, c⟩
  have h := runZonePages_listError opts env svc svc.zonePages ⟨set, [], [], [], none⟩ rfl
  rw [hr] at h
  obtain ⟨h1, h2⟩ := h
  simp only [MarkAndSweep, hr, enumErr]
  cases hE : svcZoneErr svc svc.zonePages.flatten with
  | some e =>
      rw [hE] at h1 h2
      have h1' : st.listError = some e := h1
      simp [h1']
  | none =>
      rw [hE] at h1 h2
      simp only [Option.isNone_none] at h2
      subst h2
      have h1' : st.listError = none := h1
      simp [h1']

/-! ## Claim C3: delete-chunk failures are non-fatal -/

/-- C3: when some delete request fails (the hypothesis names a failing chunk
`i` of zone `zid`), the chunk loop still issues every chunk of the change
list in order and records no error; a zone whose listing succeeds never halts
the sweep, whatever the delete outcomes; and the error returned by
`MarkAndSweep` is `enumErr svc` — a function of the listing data alone,
never of delete outcomes. -/
theorem markAndSweep_delete_failures_nonfatal (opts : Options) (env : Env)
    (svc : Route53Svc) (set : Set) (zid : String) (i idx : Nat)
    (changes : List Change) (st : SweepState)
    (_hfail : env.deleteFails zid i = true) :
    (chunkLoop env zid idx changes st).reqs =
        st.reqs ++ (chunks1000 changes).map (fun c => (zid, c)) ∧
    (chunkLoop env zid idx changes st).listError = st.listError ∧
    (∀ (st' : SweepState) (z : HostedZone), svc.recordsErr z.id = none →
      (processZone opts env svc st' z).2 = true) ∧
    (MarkAndSweep opts env svc set).1 = enumErr svc := by
  refine ⟨chunkLoopF_reqs env zid changes.length changes (le_refl _) idx st,
    chunkLoopF_listError env zid changes.length changes idx st, ?_,
    markAndSweep_error_is_enumErr opts env svc set⟩
  intro st' z hz
  cases hm : zoneIsManaged z with
  | false => rw [processZone_skip opts env svc st' z hm]
  | true =>
      obtain ⟨s', hs'⟩ := processZone_clean opts env svc st' z hm hz
      rw [hs']

set_option maxRecDepth 10000 in
/-- Witness for C3: with every delete request failing, a 1001-change batch
still produces both of its chunks (the second attempted after the first
failed), and the sweep's error is the enumeration error. -/
theorem markAndSweep_delete_failures_nonfatal_witness :
    envFail.deleteFails "Z123" 0 = true ∧
    (chunkLoop envFail "Z123" 0 (List.replicate 1001 chTest) stEmpty).reqs =
      stEmpty.reqs ++
        (chunks1000 (List.replicate 1001 chTest)).map (fun c => ("Z123", c)) ∧
    (chunkLoop envFail "Z123" 0 (List.replicate 1001 chTest) stEmpty).reqs.length = 2 ∧
    (MarkAndSweep optsWet envFail svcErr (NewSet 0)).1 = enumErr svcErr := by
  have h := markAndSweep_delete_failures_nonfatal optsWet envFail svcErr (NewSet 0)
    "Z123" 0 0 (List.replicate 1001 chTest) stEmpty rfl
  exact ⟨rfl, h.1, by decide, h.2.2.2⟩

/-! ## Claim C4: listing failures are fail-fast -/

theorem processZone_zonePages_irrel (opts : Options) (env : Env) (svc : Route53Svc)
    (X : List (List HostedZone)) (st : SweepState) (z : HostedZone) :
    processZone opts env { svc with zonePages := X } st z =
      processZone opts env svc st z := rfl

theorem processZonesInPage_zonePages_irrel (opts : Options) (env : Env)
    (svc : Route53Svc) (X : List (List HostedZone)) :
    ∀ (zs : List HostedZone) (st : SweepState),
      processZonesInPage opts env { svc with zonePages := X } zs st =
        processZonesInPage opts env svc zs st := by
  intro zs
  induction zs with
  | nil => intro st; rfl
  | cons z zs ih =>
      intro st
      simp only [processZonesInPage, processZone_zonePages_irrel]
      rcases processZone opts env svc st z with ⟨st', cont⟩
      cases cont <;> simp [ih]

theorem runZonePages_zonePages_irrel (opts : Options) (env : Env)
    (svc : Route53Svc) (X : List (List HostedZone)) :
    ∀ (pages : List (List HostedZone)) (st : SweepState),
      runZonePages opts env { svc with zonePages := X } pages st =
        runZonePages opts env svc pages st := by
  intro pages
  induction pages with
  | nil => intro st; rfl
  | cons p ps ih =>
      intro st
      simp only [runZonePages, processZonesInPage_zonePages_irrel]
      rcases processZonesInPage opts env svc p st with ⟨st', cont⟩
      cases cont <;> simp [ih]

theorem processZonesInPage_append (opts : Options) (env : Env) (svc : Route53Svc) :
    ∀ (a b : List HostedZone) (st : SweepState),
      processZonesInPage opts env svc (a ++ b) st =
        (let r := processZonesInPage opts env svc a st
         if r.2 then processZonesInPage opts env svc b r.1 else r) := by
  intro a
  induction a with
  | nil => intro b st; simp [processZonesInPage]
  | cons z a ih =>
      intro b st
      simp only [List.cons_append, processZonesInPage]
      rcases processZone opts env svc st z with ⟨st', cont⟩
      cases cont <;> simp [ih]

theorem runZonePages_append (opts : Options) (env : Env) (svc : Route53Svc) :
    ∀ (a b : List (List HostedZone)) (st : SweepState),
      runZonePages opts env svc (a ++ b) st =
        (let r := runZonePages opts env svc a st
         if r.2 then runZonePages opts env svc b r.1 else r) := by
  intro a
  induction a with
  | nil => intro b st; simp [runZonePages]
  | cons p ps ih =>
      intro b st
      simp only [List.cons_append, runZonePages]
      rcases processZonesInPage opts env svc p st with ⟨st', cont⟩
      cases cont <;> simp [ih]

/-- A page of zones starting with clean managed zones `q` and then the failing
managed zone `Z` halts pagination with `listError = some e`, and the zones
`t` after `Z` and the pages `R` after the page are never consulted: the run
equals the run whose page stops at `Z`. -/
theorem runZonePages_stop_at_fail (opts : Options) (env : Env) (svc : Route53Svc)
    (q : List HostedZone) (Z : HostedZone) (e : String)
    (hm : zoneIsManaged Z = true) (he : svc.recordsErr Z.id = some e)
    (hcleanq : ∀ z ∈ q, zoneIsManaged z = true → svc.recordsErr z.id = none)
    (t : List HostedZone) (R : List (List HostedZone)) (st : SweepState) :
    ∃ st', runZonePages opts env svc ((q ++ Z :: t) :: R) st = (st', false) ∧
      st'.listError = some e ∧
      runZonePages opts env svc [q ++ [Z]] st = (st', false) := by
  obtain ⟨sq, hq⟩ := processZonesInPage_clean opts env svc q hcleanq st
  obtain ⟨sZ, hZ⟩ := processZone_fail opts env svc
    { st with set := sq, marks := st.marks ++ zoneListKeys svc q } Z e hm he
  refine ⟨⟨sZ, st.marks ++ zoneListKeys svc q ++ zoneManagedRecordKeys svc Z,
    st.reqs, st.deleteFailures, some e⟩, ?_, rfl, ?_⟩
  · simp only [runZonePages, processZonesInPage_append, hq, if_true,
      processZonesInPage, hZ]
    simp
  · simp only [runZonePages, processZonesInPage_append, hq, if_true,
      processZonesInPage, hZ]
    simp [processZonesInPage]

/-- C4: if listing the record sets of managed zone `Z` fails with `e` (and the
managed zones before `Z` in iteration order listed cleanly), `MarkAndSweep`
returns exactly `e`, and the whole run — tracker set, marks, requests —
coincides with the run whose zone enumeration stops at `Z`: zones after `Z`
are never filtered, marked, or deleted from. -/
theorem markAndSweep_listing_failure_fail_fast (opts : Options) (env : Env)
    (svc : Route53Svc) (set : Set) (P : List (List HostedZone))
    (q : List HostedZone) (Z : HostedZone) (t : List HostedZone)
    (R : List (List HostedZone)) (e : String)
    (hzp : svc.zonePages = P ++ (q ++ Z :: t) :: R)
    (hm : zoneIsManaged Z = true)
    (he : svc.recordsErr Z.id = some e)
    (hclean : ∀ z, z ∈ P.flatten ++ q → zoneIsManaged z = true →
      svc.recordsErr z.id = none) :
    (MarkAndSweep opts env svc set).1 = some e ∧
    MarkAndSweep opts env svc set =
      MarkAndSweep opts env { svc with zonePages := P ++ [q ++ [Z]] } set := by
  have hPall := runZonePages_clean opts env svc P
    (fun z hz hm' => hclean z (List.mem_append_left _ hz) hm')
    ⟨set, [], [], [], none⟩
  rcases hP2 : runZonePages opts env svc P ⟨set, [], [], [], none⟩ with ⟨stP, cP⟩
  obtain ⟨sP, heq⟩ := hPall
  rw [hP2] at heq
  have hcPt : cP = true := (Prod.ext_iff.mp heq).2
  subst hcPt
  obtain ⟨st', h1, hle, h2⟩ := runZonePages_stop_at_fail opts env svc q Z e hm he
    (fun z hz hm' => hclean z (List.mem_append_right _ hz) hm') t R stP
  have hrun1 : runZonePages opts env svc svc.zonePages ⟨set, [], [], [], none⟩ =
      (st', false) := by
    rw [hzp, runZonePages_append]
    simp only [hP2, if_true]
    exact h1
  have hrun2 : runZonePages opts env { svc with zonePages := P ++ [q ++ [Z]] }
      (P ++ [q ++ [Z]]) ⟨set, [], [], [], none⟩ = (st', false) := by
    rw [runZonePages_zonePages_irrel, runZonePages_append]
    simp only [hP2, if_true]
    exact h2
  constructor
  · simp only [MarkAndSweep, hrun1, hle]
  · simp only [MarkAndSweep, hrun1, hrun2, hle]

/-- Witness for C4: a one-zone service whose record listing fails makes the
sweep return that very error. -/
theorem markAndSweep_listing_failure_fail_fast_witness :
    (MarkAndSweep optsWet envTest svcErr (NewSet 0)).1 = some "throttled" :=
  (markAndSweep_listing_failure_fail_fast optsWet envTest svcErr (NewSet 0)
    [] [] zTest [] [] "throttled" rfl rfl rfl (by simp)).1

/-! ## Structural lemmas: ListAll -/

/-- Whether zone `z` lists a record whose resource key is `k`. -/
def zoneHit (svc : Route53Svc) (z : HostedZone) (k : String) : Bool :=
  ((svc.recordPages z.id).flatten).any
    (fun r => k == (route53ResourceRecordSet.mk z r).ARN)

theorem listAllRecordPage_firstSeen (env : Env) (z : HostedZone) :
    ∀ (page : List ResourceRecordSet) (set : Set) (k : String),
      (listAllRecordPage env z set page).firstSeen k =
        if page.any (fun r => k == (route53ResourceRecordSet.mk z r).ARN) then
          some env.now
        else set.firstSeen k := by
  intro page
  induction page with
  | nil => intro set k; simp [listAllRecordPage]
  | cons r page ih =>
      intro set k
      have hstep : listAllRecordPage env z set (r :: page) =
          listAllRecordPage env z
            ⟨fun k' => if k' == (route53ResourceRecordSet.mk z r).ARN then some env.now
              else set.firstSeen k'⟩ page := rfl
      rw [hstep, ih]
      simp only [List.any_cons]
      by_cases h1 : (page.any fun r => k == (route53ResourceRecordSet.mk z r).ARN) = true <;>
        by_cases h2 : (k == (route53ResourceRecordSet.mk z r).ARN) = true <;>
          simp [h1, h2]

theorem foldRecordPages_firstSeen (env : Env) (z : HostedZone) :
    ∀ (ps : List (List ResourceRecordSet)) (set : Set) (k : String),
      (ps.foldl (listAllRecordPage env z) set).firstSeen k =
        if ps.flatten.any (fun r => k == (route53ResourceRecordSet.mk z r).ARN) then
          some env.now
        else set.firstSeen k := by
  intro ps
  induction ps with
  | nil => intro set k; simp
  | cons p ps ih =>
      intro set k
      simp only [List.foldl_cons, List.flatten_cons, List.any_append]
      rw [ih, listAllRecordPage_firstSeen]
      by_cases h1 : (p.any fun r => k == (route53ResourceRecordSet.mk z r).ARN) = true <;>
        by_cases h2 :
            (ps.flatten.any fun r => k == (route53ResourceRecordSet.mk z r).ARN) = true <;>
          simp [h1, h2]

theorem listAllZone_firstSeen (env : Env) (svc : Route53Svc) (z : HostedZone)
    (set : Set) (k : String) :
    (listAllZone env svc z set).1.firstSeen k =
      if zoneHit svc z k then some env.now else set.firstSeen k :=
  foldRecordPages_firstSeen env z (svc.recordPages z.id) set k

theorem zonesHit_cons (svc : Route53Svc) (z : HostedZone) (zs : List HostedZone)
    (k : String) :
    zonesHit svc (z :: zs) k =
      if zoneIsManaged z then (zoneHit svc z k || zonesHit svc zs k)
      else zonesHit svc zs k := by
  cases hm : zoneIsManaged z <;>
    simp [zonesHit, zoneHit, List.filter_cons, hm]

theorem zonesHit_append (svc : Route53Svc) (a b : List HostedZone) (k : String) :
    zonesHit svc (a ++ b) k = (zonesHit svc a k || zonesHit svc b k) := by
  simp [zonesHit, List.filter_append]

theorem listAllZonesInPage_clean (opts : Options) (env : Env) (svc : Route53Svc) :
    ∀ (zs : List HostedZone),
      (∀ z ∈ zs, zoneIsManaged z = true → svc.recordsErr z.id = none) →
      ∀ (set : Set) (err : Option String),
        (listAllZonesInPage opts env svc zs (set, err)).2 = true ∧
        (listAllZonesInPage opts env svc zs (set, err)).1.2 = err ∧
        (∀ k, (listAllZonesInPage opts env svc zs (set, err)).1.1.firstSeen k =
          if zonesHit svc zs k then some env.now else set.firstSeen k) := by
  intro zs
  induction zs with
  | nil =>
      intro _ set err
      refine ⟨rfl, rfl, fun k => ?_⟩
      simp [listAllZonesInPage, zonesHit]
  | cons z zs ih =>
      intro h set err
      cases hm : zoneIsManaged z with
      | false =>
          have hrec := ih (fun z' hz' => h z' (List.mem_cons_of_mem _ hz')) set err
          have hstep : listAllZonesInPage opts env svc (z :: zs) (set, err) =
              listAllZonesInPage opts env svc zs (set, err) := by
            simp [listAllZonesInPage, hm]
          rw [hstep]
          refine ⟨hrec.1, hrec.2.1, fun k => ?_⟩
          rw [hrec.2.2 k, zonesHit_cons, hm]
          simp
      | true =>
          have hc : svc.recordsErr z.id = none := h z (List.mem_cons_self z zs) hm
          have hstep : listAllZonesInPage opts env svc (z :: zs) (set, err) =
              listAllZonesInPage opts env svc zs ((listAllZone env svc z set).1, err) := by
            simp [listAllZonesInPage, hm, listAllZone, hc]
          have hrec := ih (fun z' hz' => h z' (List.mem_cons_of_mem _ hz'))
            (listAllZone env svc z set).1 err
          rw [hstep]
          refine ⟨hrec.1, hrec.2.1, fun k => ?_⟩
          rw [hrec.2.2 k, listAllZone_firstSeen, zonesHit_cons, hm]
          simp only [if_true]
          by_cases h1 : zonesHit svc zs k = true <;> by_cases h2 : zoneHit svc z k = true <;>
            simp [h1, h2]

theorem listAllZonesInPage_failhead (opts : Options) (env : Env) (svc : Route53Svc)
    (Z : HostedZone) (e : String) (hm : zoneIsManaged Z = true)
    (he : svc.recordsErr Z.id = some e) (t : List HostedZone) (set : Set)
    (err : Option String) :
    listAllZonesInPage opts env svc (Z :: t) (set, err) =
      (((listAllZone env svc Z set).1, some (wrapRecordsErr opts Z.id e)), false) := by
  simp [listAllZonesInPage, hm, listAllZone, he]

theorem listAllZonesInPage_append (opts : Options) (env : Env) (svc : Route53Svc) :
    ∀ (a b : List HostedZone) (st : Set × Option String),
      listAllZonesInPage opts env svc (a ++ b) st =
        (let r := listAllZonesInPage opts env svc a st
         if r.2 then listAllZonesInPage opts env svc b r.1 else r) := by
  intro a
  induction a with
  | nil => intro b st; simp [listAllZonesInPage]
  | cons z a ih =>
      intro b st
      rcases st with ⟨set, err⟩
      cases hm : zoneIsManaged z with
      | false => simp [listAllZonesInPage, hm, ih]
      | true =>
          cases he : svc.recordsErr z.id with
          | none => simp [listAllZonesInPage, hm, listAllZone, he, ih]
          | some e => simp [listAllZonesInPage, hm, listAllZone, he]

theorem listAllRunPages_clean (opts : Options) (env : Env) (svc : Route53Svc) :
    ∀ (pages : List (List HostedZone)),
      (∀ z ∈ pages.flatten, zoneIsManaged z = true → svc.recordsErr z.id = none) →
      ∀ (set : Set) (err : Option String),
        (listAllRunPages opts env svc pages (set, err)).2 = true ∧
        (listAllRunPages opts env svc pages (set, err)).1.2 = err ∧
        (∀ k, (listAllRunPages opts env svc pages (set, err)).1.1.firstSeen k =
          if zonesHit svc pages.flatten k then some env.now else set.firstSeen k) := by
  intro pages
  induction pages with
  | nil =>
      intro _ set err
      refine ⟨rfl, rfl, fun k => ?_⟩
      simp [listAllRunPages, zonesHit]
  | cons p ps ih =>
      intro h set err
      have hpAll := listAllZonesInPage_clean opts env svc p
        (fun z hz => h z (by simp [hz])) set err
      rcases hsp : listAllZonesInPage opts env svc p (set, err) with ⟨⟨setp, errp⟩, cp⟩
      rw [hsp] at hpAll
      obtain ⟨hp1, hp2, hp3⟩ := hpAll
      have hcp : cp = true := hp1
      subst hcp
      have hp2' : errp = err := hp2
      have hp3' : ∀ k, setp.firstSeen k =
          if zonesHit svc p k then some env.now else set.firstSeen k := hp3
      have hstep : listAllRunPages opts env svc (p :: ps) (set, err) =
          listAllRunPages opts env svc ps (setp, errp) := by
        simp [listAllRunPages, hsp]
      have hrec := ih (fun z hz => h z (by simp [hz])) setp errp
      rw [hstep]
      refine ⟨hrec.1, by rw [hrec.2.1, hp2'], fun k => ?_⟩
      rw [hrec.2.2 k, hp3' k]
      rw [List.flatten_cons, zonesHit_append]
      by_cases h1 : zonesHit svc p k = true <;>
        by_cases h2 : zonesHit svc ps.flatten k = true <;> simp [h1, h2]

theorem listAllRunPages_append (opts : Options) (env : Env) (svc : Route53Svc) :
    ∀ (a b : List (List HostedZone)) (st : Set × Option String),
      listAllRunPages opts env svc (a ++ b) st =
        (let r := listAllRunPages opts env svc a st
         if r.2 then listAllRunPages opts env svc b r.1 else r) := by
  intro a
  induction a with
  | nil => intro b st; simp [listAllRunPages]
  | cons p ps ih =>
      intro b st
      simp only [List.cons_append, listAllRunPages]
      rcases listAllZonesInPage opts env svc p st with ⟨st', cont⟩
      cases cont <;> simp [ih]

/-- A first-seen entry already holding the current time survives one record
page: every write stores `some env.now`, never erasing. -/
theorem listAllRecordPage_keep (env : Env) (z : HostedZone)
    (page : List ResourceRecordSet) (set : Set) (k : String)
    (h : set.firstSeen k = some env.now) :
    (listAllRecordPage env z set page).firstSeen k = some env.now := by
  rw [listAllRecordPage_firstSeen]
  by_cases hp : (page.any fun r => k == (route53ResourceRecordSet.mk z r).ARN) = true <;>
    simp [hp, h]

/-- A first-seen entry holding the current time survives one zone's record
pagination. -/
theorem listAllZone_keep (env : Env) (svc : Route53Svc) (z : HostedZone)
    (set : Set) (k : String) (h : set.firstSeen k = some env.now) :
    (listAllZone env svc z set).1.firstSeen k = some env.now := by
  rw [listAllZone_firstSeen]
  by_cases hz : zoneHit svc z k = true <;> simp [hz, h]

/-- A first-seen entry holding the current time survives the zone loop of one
page, whatever listing failures occur in it. -/
theorem listAllZonesInPage_keep (opts : Options) (env : Env) (svc : Route53Svc) :
    ∀ (zs : List HostedZone) (set : Set) (err : Option String) (k : String),
      set.firstSeen k = some env.now →
      (listAllZonesInPage opts env svc zs (set, err)).1.1.firstSeen k =
        some env.now := by
  intro zs
  induction zs with
  | nil => intro set err k h; exact h
  | cons z zs ih =>
      intro set err k h
      cases hm : zoneIsManaged z with
      | false =>
          have hstep : listAllZonesInPage opts env svc (z :: zs) (set, err) =
              listAllZonesInPage opts env svc zs (set, err) := by
            simp [listAllZonesInPage, hm]
          rw [hstep]
          exact ih set err k h
      | true =>
          cases he : svc.recordsErr z.id with
          | some e =>
              rw [listAllZonesInPage_failhead opts env svc z e hm he zs set err]
              exact listAllZone_keep env svc z set k h
          | none =>
              have hstep : listAllZonesInPage opts env svc (z :: zs) (set, err) =
                  listAllZonesInPage opts env svc zs
                    ((listAllZone env svc z set).1, err) := by
                simp [listAllZonesInPage, hm, listAllZone, he]
              rw [hstep]
              exact ih _ err k (listAllZone_keep env svc z set k h)

/-- A first-seen entry holding the current time survives the whole paginated
zone run, whatever listing failures occur. -/
theorem listAllRunPages_keep (opts : Options) (env : Env) (svc : Route53Svc) :
    ∀ (pages : List (List HostedZone)) (set : Set) (err : Option String) (k : String),
      set.firstSeen k = some env.now →
      (listAllRunPages opts env svc pages (set, err)).1.1.firstSeen k =
        some env.now := by
  intro pages
  induction pages with
  | nil => intro set err k h; exact h
  | cons p ps ih =>
      intro set err k h
      rcases hsp : listAllZonesInPage opts env svc p (set, err) with ⟨⟨setp, errp⟩, cp⟩
      have hkeep : setp.firstSeen k = some env.now := by
        have hx := listAllZonesInPage_keep opts env svc p set err k h
        rw [hsp] at hx
        exact hx
      cases cp with
      | false =>
          have hstep : listAllRunPages opts env svc (p :: ps) (set, err) =
              ((setp, errp), false) := by
            simp [listAllRunPages, hsp]
          rw [hstep]
          exact hkeep
      | true =>
          have hstep : listAllRunPages opts env svc (p :: ps) (set, err) =
              listAllRunPages opts env svc ps (setp, errp) := by
            simp [listAllRunPages, hsp]
          rw [hstep]
          exact ih setp errp k hkeep

/-- The set `ListAll` returns is the set built by the paginated run, on every
path — error or not, the set is handed back. -/
theorem ListAll_fst (opts : Options) (env : Env) (svc : Route53Svc) :
    (ListAll opts env svc).1 =
      (listAllRunPages opts env svc svc.zonePages (NewSet 0, none)).1.1 := by
  rcases h : listAllRunPages opts env svc svc.zonePages (NewSet 0, none)
    with ⟨⟨setF, errF⟩, cF⟩
  cases errF <;> simp [ListAll, h]

/-! ## Claim C9: ListAll records everything in managed zones -/

/-- C9: a successful `ListAll` run ends without error, records a first-seen
time for every record set of every managed zone — with no record excluded by
`resourceRecordSetIsManaged` — and records nothing that does not come from a
managed zone's record listing. -/
theorem listAll_inventory_unfiltered (opts : Options) (env : Env) (svc : Route53Svc)
    (hclean : ∀ z ∈ svc.zonePages.flatten, zoneIsManaged z = true →
      svc.recordsErr z.id = none)
    (hzerr : svc.zonesErr = none) :
    (ListAll opts env svc).2 = none ∧
    (∀ z ∈ svc.zonePages.flatten, zoneIsManaged z = true →
      ∀ r ∈ (svc.recordPages z.id).flatten,
        (ListAll opts env svc).1.firstSeen ((route53ResourceRecordSet.mk z r).ARN) =
          some env.now) ∧
    (∀ k, (ListAll opts env svc).1.firstSeen k ≠ none →
      ∃ z, z ∈ svc.zonePages.flatten ∧ zoneIsManaged z = true ∧
        ∃ r, r ∈ (svc.recordPages z.id).flatten ∧
          k = (route53ResourceRecordSet.mk z r).ARN) := by
  have hAll := listAllRunPages_clean opts env svc svc.zonePages hclean (NewSet 0) none
  rcases hr : listAllRunPages opts env svc svc.zonePages (NewSet 0, none)
    with ⟨⟨setF, errF⟩, cF⟩
  rw [hr] at hAll
  obtain ⟨h1, h2, h3⟩ := hAll
  have hcF : cF = true := h1
  subst hcF
  have herr : errF = none := h2
  subst herr
  have h3' : ∀ k, setF.firstSeen k =
      if zonesHit svc svc.zonePages.flatten k then some env.now
      else (NewSet 0).firstSeen k := h3
  have hLA : ListAll opts env svc = (setF, none) := by
    simp [ListAll, hr, hzerr]
  refine ⟨by rw [hLA], ?_, ?_⟩
  · intro z hz hm r hrr
    rw [hLA]
    rw [show ((setF, (none : Option String)).1.firstSeen
        ((route53ResourceRecordSet.mk z r).ARN)) =
      setF.firstSeen ((route53ResourceRecordSet.mk z r).ARN) from rfl]
    rw [h3']
    have hhit : zonesHit svc svc.zonePages.flatten
        ((route53ResourceRecordSet.mk z r).ARN) = true := by
      simp only [zonesHit, List.any_eq_true]
      refine ⟨z, List.mem_filter.mpr ⟨hz, hm⟩, r, hrr, ?_⟩
      simp
    rw [hhit]
    simp
  · intro k hk
    rw [hLA] at hk
    have hk' : setF.firstSeen k ≠ none := hk
    rw [h3' k] at hk'
    by_cases hhit : zonesHit svc svc.zonePages.flatten k = true
    · simp only [zonesHit, List.any_eq_true] at hhit
      obtain ⟨z, hzf, r, hrmem, hkr⟩ := hhit
      obtain ⟨hzmem, hzm⟩ := List.mem_filter.mp hzf
      exact ⟨z, hzmem, hzm, r, hrmem, eq_of_beq hkr⟩
    · rw [if_neg hhit] at hk'
      exact absurd rfl hk'

/-- Witness for C9: on the clean one-zone service the hypotheses hold, the run
succeeds, and the (managed) record's key is in the returned set. -/
theorem listAll_inventory_unfiltered_witness :
    (ListAll optsWet envTest svcTest).2 = none ∧
    (ListAll optsWet envTest svcTest).1.firstSeen keyTest = some 7 := by
  have h := listAll_inventory_unfiltered optsWet envTest svcTest (fun z _ _ => rfl) rfl
  refine ⟨h.1, ?_⟩
  exact h.2.1 zTest (by decide) rfl rTest (by decide)

/-! ## Claim C10: partial inventory survives a failing run -/

/-- C10: every run of `ListAll` hands back the set it was filling, and that
set keeps every first-seen entry recorded before any failure.  First
conjunct: for every managed zone `Z` the run reaches (the managed zones
before it listed cleanly) — with no assumption on `Z`'s own listing outcome
or on the zone-pagination error — every record delivered for `Z` has its
first-seen entry in the returned set.  Second conjunct: a run ending in a
zone-listing error returns that error, wrapped, alongside the set.  Third
conjunct: a run ending in a record-listing error returns that error,
wrapped, alongside the set. -/
theorem listAll_partial_inventory_on_error (opts : Options) (env : Env)
    (svc : Route53Svc) :
    (∀ (P : List (List HostedZone)) (q : List HostedZone) (Z : HostedZone)
        (t : List HostedZone) (R : List (List HostedZone)),
      svc.zonePages = P ++ (q ++ Z :: t) :: R →
      zoneIsManaged Z = true →
      (∀ z, z ∈ P.flatten ++ q → zoneIsManaged z = true →
        svc.recordsErr z.id = none) →
      ∀ r ∈ (svc.recordPages Z.id).flatten,
        (ListAll opts env svc).1.firstSeen ((route53ResourceRecordSet.mk Z r).ARN) =
          some env.now) ∧
    (∀ e : String,
      (∀ z ∈ svc.zonePages.flatten, zoneIsManaged z = true →
        svc.recordsErr z.id = none) →
      svc.zonesErr = some e →
      (ListAll opts env svc).2 = some (wrapZonesErr opts e)) ∧
    (∀ (P : List (List HostedZone)) (q : List HostedZone) (Z : HostedZone)
        (t : List HostedZone) (R : List (List HostedZone)) (e : String),
      svc.zonePages = P ++ (q ++ Z :: t) :: R →
      zoneIsManaged Z = true →
      svc.recordsErr Z.id = some e →
      (∀ z, z ∈ P.flatten ++ q → zoneIsManaged z = true →
        svc.recordsErr z.id = none) →
      (ListAll opts env svc).2 = some (wrapRecordsErr opts Z.id e)) := by
  refine ⟨?_, ?_, ?_⟩
  · -- entries of every reached managed zone are in the returned set
    intro P q Z t R hzp hm hclean r hrr
    have hPAll := listAllRunPages_clean opts env svc P
      (fun z hz => hclean z (List.mem_append_left _ hz)) (NewSet 0) none
    rcases hrP : listAllRunPages opts env svc P (NewSet 0, none) with ⟨⟨setP, errP⟩, cP⟩
    rw [hrP] at hPAll
    obtain ⟨hp1, _, _⟩ := hPAll
    have hcP : cP = true := hp1
    subst hcP
    have hqAll := listAllZonesInPage_clean opts env svc q
      (fun z hz => hclean z (List.mem_append_right _ hz)) setP errP
    rcases hrq : listAllZonesInPage opts env svc q (setP, errP) with ⟨⟨setq, errq⟩, cq⟩
    rw [hrq] at hqAll
    obtain ⟨hq1, _, _⟩ := hqAll
    have hcq : cq = true := hq1
    subst hcq
    have hZset : (listAllZone env svc Z setq).1.firstSeen
        ((route53ResourceRecordSet.mk Z r).ARN) = some env.now := by
      rw [listAllZone_firstSeen]
      have hhit : zoneHit svc Z ((route53ResourceRecordSet.mk Z r).ARN) = true := by
        simp only [zoneHit, List.any_eq_true]
        exact ⟨r, hrr, by simp⟩
      rw [hhit]
      simp
    have hfull : listAllRunPages opts env svc (P ++ (q ++ Z :: t) :: R)
        (NewSet 0, none) =
        listAllRunPages opts env svc ((q ++ Z :: t) :: R) (setP, errP) := by
      rw [listAllRunPages_append]
      simp [hrP]
    have hpost : (listAllRunPages opts env svc ((q ++ Z :: t) :: R)
        (setP, errP)).1.1.firstSeen ((route53ResourceRecordSet.mk Z r).ARN) =
        some env.now := by
      cases he : svc.recordsErr Z.id with
      | some e =>
          have hpage : listAllZonesInPage opts env svc (q ++ Z :: t) (setP, errP) =
              (((listAllZone env svc Z setq).1,
                some (wrapRecordsErr opts Z.id e)), false) := by
            rw [listAllZonesInPage_append]
            simp only [hrq, if_true]
            exact listAllZonesInPage_failhead opts env svc Z e hm he t setq errq
          have hstep : listAllRunPages opts env svc ((q ++ Z :: t) :: R)
              (setP, errP) =
              (((listAllZone env svc Z setq).1,
                some (wrapRecordsErr opts Z.id e)), false) := by
            simp [listAllRunPages, hpage]
          rw [hstep]
          exact hZset
      | none =>
          have hpage : listAllZonesInPage opts env svc (q ++ Z :: t) (setP, errP) =
              listAllZonesInPage opts env svc t
                ((listAllZone env svc Z setq).1, errq) := by
            rw [listAllZonesInPage_append]
            simp only [hrq, if_true]
            simp [listAllZonesInPage, hm, listAllZone, he]
          rcases hrt : listAllZonesInPage opts env svc t
              ((listAllZone env svc Z setq).1, errq) with ⟨⟨sett, errt⟩, ct⟩
          have hkeept : sett.firstSeen ((route53ResourceRecordSet.mk Z r).ARN) =
              some env.now := by
            have hx := listAllZonesInPage_keep opts env svc t
              (listAllZone env svc Z setq).1 errq
              ((route53ResourceRecordSet.mk Z r).ARN) hZset
            rw [hrt] at hx
            exact hx
          cases ct with
          | false =>
              have hstep : listAllRunPages opts env svc ((q ++ Z :: t) :: R)
                  (setP, errP) = ((sett, errt), false) := by
                simp [listAllRunPages, hpage, hrt]
              rw [hstep]
              exact hkeept
          | true =>
              have hstep : listAllRunPages opts env svc ((q ++ Z :: t) :: R)
                  (setP, errP) = listAllRunPages opts env svc R (sett, errt) := by
                simp [listAllRunPages, hpage, hrt]
              rw [hstep]
              exact listAllRunPages_keep opts env svc R sett errt
                ((route53ResourceRecordSet.mk Z r).ARN) hkeept
    rw [ListAll_fst, hzp, hfull]
    exact hpost
  · -- a zone-listing error is returned, wrapped, alongside the set
    intro e hclean hze
    have hAll := listAllRunPages_clean opts env svc svc.zonePages hclean (NewSet 0) none
    rcases hr : listAllRunPages opts env svc svc.zonePages (NewSet 0, none)
      with ⟨⟨setF, errF⟩, cF⟩
    rw [hr] at hAll
    obtain ⟨h1, h2, _⟩ := hAll
    have hcF : cF = true := h1
    subst hcF
    have herr : errF = none := h2
    subst herr
    simp [ListAll, hr, hze]
  · -- a record-listing error is returned, wrapped, alongside the set
    intro P q Z t R e hzp hm he hclean
    have hPAll := listAllRunPages_clean opts env svc P
      (fun z hz => hclean z (List.mem_append_left _ hz)) (NewSet 0) none
    rcases hrP : listAllRunPages opts env svc P (NewSet 0, none) with ⟨⟨setP, errP⟩, cP⟩
    rw [hrP] at hPAll
    obtain ⟨hp1, _, _⟩ := hPAll
    have hcP : cP = true := hp1
    subst hcP
    have hqAll := listAllZonesInPage_clean opts env svc q
      (fun z hz => hclean z (List.mem_append_right _ hz)) setP errP
    rcases hrq : listAllZonesInPage opts env svc q (setP, errP) with ⟨⟨setq, errq⟩, cq⟩
    rw [hrq] at hqAll
    obtain ⟨hq1, _, _⟩ := hqAll
    have hcq : cq = true := hq1
    subst hcq
    have hpage : listAllZonesInPage opts env svc (q ++ Z :: t) (setP, errP) =
        (((listAllZone env svc Z setq).1, some (wrapRecordsErr opts Z.id e)),
         false) := by
      rw [listAllZonesInPage_append]
      simp only [hrq, if_true]
      exact listAllZonesInPage_failhead opts env svc Z e hm he t setq errq
    have hrun : listAllRunPages opts env svc svc.zonePages (NewSet 0, none) =
        (((listAllZone env svc Z setq).1, some (wrapRecordsErr opts Z.id e)),
         false) := by
      rw [hzp, listAllRunPages_append]
      simp only [hrP, if_true]
      simp [listAllRunPages, hpage]
    simp [ListAll, hrun]

/-- Witness for C10: both failure modes concretely.  With the record listing
failing, `ListAll` returns the wrapped record-listing error and still holds
the key recorded from the pages delivered before the failure; with the zone
pagination failing after its pages (record listings clean), it returns the
wrapped zone-listing error and still holds the recorded key. -/
theorem listAll_partial_inventory_on_error_witness :
    (ListAll optsWet envTest svcErr).2 =
      some (wrapRecordsErr optsWet "Z123" "throttled") ∧
    (ListAll optsWet envTest svcErr).1.firstSeen keyTest = some 7 ∧
    (ListAll optsWet envTest svcZoneFail).2 =
      some (wrapZonesErr optsWet "zone page timeout") ∧
    (ListAll optsWet envTest svcZoneFail).1.firstSeen keyTest = some 7 := by
  have h1 := listAll_partial_inventory_on_error optsWet envTest svcErr
  have h2 := listAll_partial_inventory_on_error optsWet envTest svcZoneFail
  refine ⟨h1.2.2 [] [] zTest [] [] "throttled" rfl rfl rfl (by simp), ?_,
    h2.2.1 "zone page timeout" (fun z _ _ => rfl) rfl, ?_⟩
  · exact h1.1 [] [] zTest [] [] rfl rfl (by simp) rTest (by decide)
  · exact h2.1 [] [] zTest [] [] rfl rfl (by simp) rTest (by decide)

end Boskos
